import Mathlib

/-!
Shallow embedding of the matching/attendance core of
`src/V3-ImageAPP-V2-S.py` (class `AttendanceApp`).

Face descriptors are an abstract type `Desc`; the external distance
primitive `face_recognition.face_distance` is a parameter
`dist : Desc → Desc → ℚ`, so every theorem below holds for every
distance function.  Roll numbers are strings (the source coerces the
roster column with `astype(str)`).  The GUI table is a list of
`(roll number, status)` rows: the source reads column 0 and writes
column 1 of row `i`, which is exactly row replacement at index `i`.

File-system and library effects are passed in as explicit outcome
values: decoding the group image yields `Option (List Desc)`
(`none` = `cv2.imread` returned `None`, `some ds` = the descriptor
list produced by `face_recognition.face_encodings`), and reference
loading consults a per-roll-number outcome (see `RefOutcome`).
-/

set_option autoImplicit false

namespace AttendanceApp

/-- The tolerance passed to `compare_faces` at lines 151 and 184 of the
source (`tolerance=0.5`). -/
def tolerance : ℚ := 1/2

/-- `face_recognition.face_distance(known_face_encodings, detected_encoding)`:
one distance per known encoding, in order. -/
def face_distance {Desc : Type} (dist : Desc → Desc → ℚ)
    (known : List Desc) (det : Desc) : List ℚ :=
  known.map (fun k => dist k det)

/-- Modelled from the spec: `face_recognition.compare_faces` is an external
library primitive whose code is not part of this repository; the spec
describes it as accepting a match if and only if the distance is below the
tolerance, so `compare_faces` returns, per known encoding, whether its
distance to the detected encoding is strictly below `tol`. -/
def compare_faces {Desc : Type} (dist : Desc → Desc → ℚ)
    (known : List Desc) (det : Desc) (tol : ℚ) : List Bool :=
  known.map (fun k => decide (dist k det < tol))

/-- Minimum of a list of distances (`0` on the empty list, which the
source never queries thanks to the `len(face_distances) > 0` guard). -/
def listMin : List ℚ → ℚ
  | [] => 0
  | [d] => d
  | d :: d2 :: ds => min d (listMin (d2 :: ds))

/-- Modelled from the spec: `np.argmin` is an external library primitive
whose code is not part of this repository; the spec says ties resolve to
whichever reference the underlying ordering presents first, so `argmin`
returns the first index attaining the minimum. -/
def argmin : List ℚ → Nat
  | [] => 0
  | [_] => 0
  | d :: d2 :: ds => if d ≤ listMin (d2 :: ds) then 0 else argmin (d2 :: ds) + 1

/-- One iteration of the matching loop (source lines 149-162): compute
`matches` and `face_distances` against the known encodings, take
`best_match_index = argmin` when the distance list is nonempty (`-1`,
i.e. `none`, otherwise), and accept `known_face_roll_numbers[best]`
when `matches[best]` holds. -/
def matchOne {Desc : Type} (dist : Desc → Desc → ℚ)
    (known : List Desc) (rolls : List String) (det : Desc) : Option String :=
  let mts := compare_faces dist known det tolerance
  let face_distances := face_distance dist known det
  if 0 < face_distances.length then
    let best := argmin face_distances
    if mts.getD best false then some (rolls.getD best "") else none
  else none

/-- The present set built by the matching loop of `process_image`
(source lines 148-162): fold over the detected encodings, adding each
accepted roll number to the set. -/
def computePresent {Desc : Type} (dist : Desc → Desc → ℚ)
    (known : List Desc) (rolls : List String) (dets : List Desc) : Finset String :=
  dets.foldl (fun acc det =>
    match matchOne dist known rolls det with
    | some r => insert r acc
    | none => acc) ∅

/-- The attendance-marking loop of `process_image` (source lines
165-170): for every row, keep the roll number and write `"P"` when it
is in the present set, `"A"` otherwise. -/
def applyPresent (table : List (String × String)) (present : Finset String) :
    List (String × String) :=
  table.map (fun row => (row.1, if row.1 ∈ present then "P" else "A"))

/-- One iteration of the matching loop of `update_attendance` (source
lines 182-195), which repeats the loop body of `process_image`
verbatim. -/
def matchOneUpdate {Desc : Type} (dist : Desc → Desc → ℚ)
    (known : List Desc) (rolls : List String) (det : Desc) : Option String :=
  let mts := compare_faces dist known det tolerance
  let face_distances := face_distance dist known det
  if 0 < face_distances.length then
    let best := argmin face_distances
    if mts.getD best false then some (rolls.getD best "") else none
  else none

/-- The present set built by the matching loop of `update_attendance`
(source lines 181-195). -/
def computePresentUpdate {Desc : Type} (dist : Desc → Desc → ℚ)
    (known : List Desc) (rolls : List String) (dets : List Desc) : Finset String :=
  dets.foldl (fun acc det =>
    match matchOneUpdate dist known rolls det with
    | some r => insert r acc
    | none => acc) ∅

/-- The attendance-marking loop of `update_attendance` (source lines
198-203), textually identical to the one in `process_image`. -/
def applyPresentUpdate (table : List (String × String)) (present : Finset String) :
    List (String × String) :=
  table.map (fun row => (row.1, if row.1 ∈ present then "P" else "A"))

/-- The mutable stores of `AttendanceApp` (source lines 59-62 plus the
GUI table): roster, reference encodings with their roll numbers, the
detected faces of the last processed group image, and the attendance
table rows. -/
structure AppState (Desc : Type) where
  roll_numbers : List String
  known_face_encodings : List Desc
  known_face_roll_numbers : List String
  group_face_encodings : List Desc
  table : List (String × String)
  deriving Repr, DecidableEq

/-- `__init__` (source lines 59-62): every store starts empty. -/
def initState {Desc : Type} : AppState Desc :=
  { roll_numbers := []
    known_face_encodings := []
    known_face_roll_numbers := []
    group_face_encodings := []
    table := [] }

/-- Outcome of the reference lookup for one roll number in
`load_reference_images` (source lines 97-116): no file with any of the
tried extensions exists; a file exists and `face_encodings` returns the
given descriptor list (possibly empty, line 111); or one of the library
calls (`load_image_file` / `face_encodings`, lines 104-105) raises an
exception — the source has no `try` around them. -/
inductive RefOutcome (Desc : Type) where
  | noFile
  | faces (ds : List Desc)
  | err
  deriving Repr, DecidableEq

/-- The loop of `load_reference_images` (source lines 97-116), acting on
the pair (known_face_encodings, known_face_roll_numbers) that was
cleared at lines 93-94.  When a roll number's file is found and has at
least one face, both lists are appended to in lockstep (lines 107-108);
a raised exception stops the loop with the lists as they stand, the
returned flag recording that the exception escaped the action. -/
def loadRefsAux {Desc : Type} (outcome : String → RefOutcome Desc) :
    List String → List Desc × List String → (List Desc × List String) × Bool
  | [], acc => (acc, false)
  | r :: rs, (encs, rolls) =>
    match outcome r with
    | RefOutcome.err => ((encs, rolls), true)
    | RefOutcome.noFile => loadRefsAux outcome rs (encs, rolls)
    | RefOutcome.faces [] => loadRefsAux outcome rs (encs, rolls)
    | RefOutcome.faces (d :: _) => loadRefsAux outcome rs (encs ++ [d], rolls ++ [r])

/-- `load_reference_images` (source lines 89-118): clear both reference
stores, then run the loop over the roster.  The boolean is `true` when
a library exception escaped the action partway through. -/
def load_reference_images {Desc : Type} (st : AppState Desc)
    (outcome : String → RefOutcome Desc) : AppState Desc × Bool :=
  let res := loadRefsAux outcome st.roll_numbers ([], [])
  ({ st with known_face_encodings := res.1.1, known_face_roll_numbers := res.1.2 },
   res.2)

/-- The (descriptor, roll number) pairs that the `load_reference_images`
loop accumulates: one pair per roster entry whose file was found with a
nonempty face list, truncated at the first entry whose library call
raises.  Used to state what the loop leaves in the stores. -/
def refPairs {Desc : Type} (outcome : String → RefOutcome Desc) :
    List String → List (Desc × String)
  | [] => []
  | r :: rs =>
    match outcome r with
    | RefOutcome.err => []
    | RefOutcome.noFile => refPairs outcome rs
    | RefOutcome.faces [] => refPairs outcome rs
    | RefOutcome.faces (d :: _) => (d, r) :: refPairs outcome rs

/-- Whether the `load_reference_images` loop hits a raising entry. -/
def refErr {Desc : Type} (outcome : String → RefOutcome Desc) :
    List String → Bool
  | [] => false
  | r :: rs =>
    match outcome r with
    | RefOutcome.err => true
    | _ => refErr outcome rs

/-- `load_roll_numbers` (source lines 64-87).  `csv = none` covers every
non-success path — no file chosen, missing `Roll Number` column, or a
caught exception — all of which only set the status label and return.
`csv = some rolls` stores the roster and rebuilds the table with one
`"A"` row per roll number after `setRowCount(0)` (lines 75-84). -/
def load_roll_numbers {Desc : Type} (st : AppState Desc)
    (csv : Option (List String)) : AppState Desc :=
  match csv with
  | none => st
  | some rolls =>
    { st with roll_numbers := rolls, table := rolls.map (fun r => (r, "A")) }

/-- `process_image` (source lines 128-172).  `decoded = none` models
`cv2.imread` returning `None` (line 131, early return); `some dets` is
the detected-encoding list.  On zero detections the source returns at
line 143 before storing anything; otherwise it stores the detections
(line 145), runs the matching loop and rewrites the table. -/
def process_image {Desc : Type} (dist : Desc → Desc → ℚ)
    (st : AppState Desc) (decoded : Option (List Desc)) : AppState Desc :=
  match decoded with
  | none => st
  | some dets =>
    if dets.length = 0 then st
    else
      { st with
        group_face_encodings := dets,
        table := applyPresent st.table
          (computePresent dist st.known_face_encodings st.known_face_roll_numbers dets) }

/-- `update_attendance` (source lines 174-205): early return when no
group image was processed (line 176), else rerun the matching loop on
the stored detections and rewrite the table. -/
def update_attendance {Desc : Type} (dist : Desc → Desc → ℚ)
    (st : AppState Desc) : AppState Desc :=
  if st.group_face_encodings.isEmpty then st
  else
    { st with
      table := applyPresentUpdate st.table
        (computePresentUpdate dist st.known_face_encodings
          st.known_face_roll_numbers st.group_face_encodings) }

/-! ### Helper lemmas: `listMin` and `argmin` -/

theorem listMin_cons_cons (d d2 : ℚ) (ds : List ℚ) :
    listMin (d :: d2 :: ds) = min d (listMin (d2 :: ds)) := rfl

theorem argmin_cons_cons (d d2 : ℚ) (ds : List ℚ) :
    argmin (d :: d2 :: ds) =
      if d ≤ listMin (d2 :: ds) then 0 else argmin (d2 :: ds) + 1 := rfl

theorem listMin_le (l : List ℚ) : ∀ x ∈ l, listMin l ≤ x := by
  induction l with
  | nil => intro x hx; cases hx
  | cons d ds ih =>
    intro x hx
    cases ds with
    | nil =>
      rcases List.mem_cons.mp hx with h | h
      · simp [listMin, h]
      · cases h
    | cons d2 ds2 =>
      rw [listMin_cons_cons]
      rcases List.mem_cons.mp hx with h | h
      · subst h; exact min_le_left _ _
      · exact le_trans (min_le_right _ _) (ih x h)

theorem argmin_lt_length (l : List ℚ) (h : l ≠ []) : argmin l < l.length := by
  induction l with
  | nil => exact absurd rfl h
  | cons d ds ih =>
    cases ds with
    | nil => simp [argmin]
    | cons d2 ds2 =>
      rw [argmin_cons_cons]
      by_cases hle : d ≤ listMin (d2 :: ds2)
      · simp [hle]
      · have := ih (by simp)
        simp only [List.length_cons] at this ⊢
        simp only [if_neg hle]
        omega

theorem getD_argmin (l : List ℚ) (h : l ≠ []) : l.getD (argmin l) 0 = listMin l := by
  induction l with
  | nil => exact absurd rfl h
  | cons d ds ih =>
    cases ds with
    | nil => simp [argmin, listMin]
    | cons d2 ds2 =>
      rw [argmin_cons_cons, listMin_cons_cons]
      by_cases hle : d ≤ listMin (d2 :: ds2)
      · simp [hle, min_eq_left hle]
      · have hlt : listMin (d2 :: ds2) < d := lt_of_not_le hle
        simp only [if_neg hle, List.getD_cons_succ]
        rw [ih (by simp), min_eq_right (le_of_lt hlt)]

theorem listMin_lt_of_lt_argmin (l : List ℚ) :
    ∀ j (hj : j < l.length), j < argmin l → listMin l < l.get ⟨j, hj⟩ := by
  induction l with
  | nil => intro j hj _; cases hj
  | cons d ds ih =>
    intro j hj hlt
    cases ds with
    | nil => simp [argmin] at hlt
    | cons d2 ds2 =>
      rw [argmin_cons_cons] at hlt
      by_cases hle : d ≤ listMin (d2 :: ds2)
      · simp [hle] at hlt
      · have hmlt : listMin (d2 :: ds2) < d := lt_of_not_le hle
        rw [if_neg hle] at hlt
        rw [listMin_cons_cons, min_eq_right (le_of_lt hmlt)]
        cases j with
        | zero => simpa using hmlt
        | succ j2 =>
          have hj2 : j2 < (d2 :: ds2).length := by simpa using hj
          have := ih j2 hj2 (by omega)
          simpa using this

/-! ### Helper lemmas: the matching loop -/

theorem face_distance_length {Desc : Type} (dist : Desc → Desc → ℚ)
    (known : List Desc) (det : Desc) :
    (face_distance dist known det).length = known.length := by
  simp [face_distance]

theorem face_distance_ne_nil {Desc : Type} (dist : Desc → Desc → ℚ)
    {known : List Desc} (det : Desc) (h : known ≠ []) :
    face_distance dist known det ≠ [] := by
  simpa [face_distance] using h

theorem compare_faces_getD {Desc : Type} (dist : Desc → Desc → ℚ) :
    ∀ (known : List Desc) (det : Desc) (tol : ℚ) (i : Nat), i < known.length →
      (compare_faces dist known det tol).getD i false
        = decide ((face_distance dist known det).getD i 0 < tol) := by
  intro known
  induction known with
  | nil => intro det tol i h; simp at h
  | cons k ks ih =>
    intro det tol i h
    cases i with
    | zero => simp [compare_faces, face_distance]
    | succ j =>
      have hj : j < ks.length := by simpa using h
      simpa [compare_faces, face_distance] using ih det tol j hj

theorem matchOne_nil {Desc : Type} (dist : Desc → Desc → ℚ)
    (rolls : List String) (det : Desc) :
    matchOne dist ([] : List Desc) rolls det = none := rfl

theorem matchOne_eq {Desc : Type} (dist : Desc → Desc → ℚ)
    {known : List Desc} (rolls : List String) (det : Desc) (h : known ≠ []) :
    matchOne dist known rolls det =
      if listMin (face_distance dist known det) < tolerance
      then some (rolls.getD (argmin (face_distance dist known det)) "")
      else none := by
  have hne : face_distance dist known det ≠ [] := face_distance_ne_nil dist det h
  have hpos : 0 < (face_distance dist known det).length :=
    List.length_pos.mpr hne
  have hlt : argmin (face_distance dist known det) < known.length := by
    rw [← face_distance_length dist known det]
    exact argmin_lt_length _ hne
  have hc := compare_faces_getD dist known det tolerance
    (argmin (face_distance dist known det)) hlt
  have hg := getD_argmin (face_distance dist known det) hne
  unfold matchOne
  rw [if_pos hpos]
  simp only [hc, hg]
  by_cases hm : listMin (face_distance dist known det) < tolerance
  · simp [hm]
  · simp [hm]

theorem mem_computePresent_aux {Desc : Type} (dist : Desc → Desc → ℚ)
    (known : List Desc) (rolls : List String) :
    ∀ (dets : List Desc) (acc : Finset String) (x : String),
      (x ∈ dets.foldl (fun acc det =>
        match matchOne dist known rolls det with
        | some r => insert r acc
        | none => acc) acc)
      ↔ x ∈ acc ∨ ∃ det ∈ dets, matchOne dist known rolls det = some x := by
  intro dets
  induction dets with
  | nil => intro acc x; simp
  | cons d ds ih =>
    intro acc x
    rw [List.foldl_cons]
    cases hm : matchOne dist known rolls d with
    | none =>
      rw [ih]
      constructor
      · rintro (ha | ⟨det, hdet, hsome⟩)
        · exact Or.inl ha
        · exact Or.inr ⟨det, List.mem_cons_of_mem _ hdet, hsome⟩
      · rintro (ha | ⟨det, hdet, hsome⟩)
        · exact Or.inl ha
        · rcases List.mem_cons.mp hdet with rfl | hdet2
          · rw [hm] at hsome; cases hsome
          · exact Or.inr ⟨det, hdet2, hsome⟩
    | some r =>
      rw [ih]
      constructor
      · rintro (ha | ⟨det, hdet, hsome⟩)
        · rcases Finset.mem_insert.mp ha with rfl | ha2
          · exact Or.inr ⟨d, List.mem_cons_self _ _, hm⟩
          · exact Or.inl ha2
        · exact Or.inr ⟨det, List.mem_cons_of_mem _ hdet, hsome⟩
      · rintro (ha | ⟨det, hdet, hsome⟩)
        · exact Or.inl (Finset.mem_insert_of_mem ha)
        · rcases List.mem_cons.mp hdet with rfl | hdet2
          · rw [hm] at hsome
            injection hsome with h2
            subst h2
            exact Or.inl (Finset.mem_insert_self _ _)
          · exact Or.inr ⟨det, hdet2, hsome⟩

theorem mem_computePresent {Desc : Type} (dist : Desc → Desc → ℚ)
    (known : List Desc) (rolls : List String) (dets : List Desc) (x : String) :
    x ∈ computePresent dist known rolls dets
      ↔ ∃ det ∈ dets, matchOne dist known rolls det = some x := by
  unfold computePresent
  rw [mem_computePresent_aux]
  simp

theorem computePresent_nil_known {Desc : Type} (dist : Desc → Desc → ℚ)
    (rolls : List String) (dets : List Desc) :
    computePresent dist ([] : List Desc) rolls dets = ∅ := by
  ext x
  rw [mem_computePresent]
  simp [matchOne_nil]

/-! ### Helper lemmas: the attendance-marking loop -/

theorem applyPresent_length (table : List (String × String)) (present : Finset String) :
    (applyPresent table present).length = table.length := by
  simp [applyPresent]

theorem applyPresent_getD (present : Finset String) :
    ∀ (table : List (String × String)) (i : Nat), i < table.length →
      (applyPresent table present).getD i ("", "") =
        ((table.getD i ("", "")).1,
          if (table.getD i ("", "")).1 ∈ present then "P" else "A") := by
  intro table
  induction table with
  | nil => intro i h; simp at h
  | cons row rows ih =>
    intro i h
    cases i with
    | zero => simp [applyPresent]
    | succ j =>
      have hj : j < rows.length := by simpa using h
      simpa [applyPresent] using ih j hj

/-! ### Helper lemmas: the reference-loading loop -/

theorem loadRefsAux_eq {Desc : Type} (outcome : String → RefOutcome Desc) :
    ∀ (rs : List String) (encs : List Desc) (rolls : List String),
      loadRefsAux outcome rs (encs, rolls) =
        ((encs ++ (refPairs outcome rs).map Prod.fst,
          rolls ++ (refPairs outcome rs).map Prod.snd),
         refErr outcome rs) := by
  intro rs
  induction rs with
  | nil => intro encs rolls; simp [loadRefsAux, refPairs, refErr]
  | cons r rs2 ih =>
    intro encs rolls
    cases ho : outcome r with
    | err => simp [loadRefsAux, refPairs, refErr, ho]
    | noFile => simp [loadRefsAux, refPairs, refErr, ho, ih]
    | faces ds =>
      cases ds with
      | nil => simp [loadRefsAux, refPairs, refErr, ho, ih]
      | cons d dtl => simp [loadRefsAux, refPairs, refErr, ho, ih]

theorem refPairs_pairing {Desc : Type} (outcome : String → RefOutcome Desc) :
    ∀ (rs : List String), ∀ p ∈ refPairs outcome rs,
      ∃ tl, outcome p.2 = RefOutcome.faces (p.1 :: tl) := by
  intro rs
  induction rs with
  | nil => intro p hp; simp [refPairs] at hp
  | cons r rs2 ih =>
    intro p hp
    cases ho : outcome r with
    | err => rw [refPairs, ho] at hp; cases hp
    | noFile => rw [refPairs, ho] at hp; exact ih p hp
    | faces ds =>
      cases ds with
      | nil => rw [refPairs, ho] at hp; exact ih p hp
      | cons d dtl =>
        rw [refPairs, ho] at hp
        rcases List.mem_cons.mp hp with rfl | hp2
        · exact ⟨dtl, ho⟩
        · exact ih p hp2

theorem load_reference_images_eq {Desc : Type} (st : AppState Desc)
    (outcome : String → RefOutcome Desc) :
    load_reference_images st outcome =
      ({ st with
          known_face_encodings := (refPairs outcome st.roll_numbers).map Prod.fst,
          known_face_roll_numbers := (refPairs outcome st.roll_numbers).map Prod.snd },
       refErr outcome st.roll_numbers) := by
  unfold load_reference_images
  rw [loadRefsAux_eq outcome st.roll_numbers [] []]
  rfl

/-! ### Claims -/

/-- Claim C1 is false as stated: with roster `["1", "2"]`, pre-action
reference stores `[(0 : ℚ)]` / `["0"]`, and an encoder that succeeds on
`"1"` (descriptor `3`) and raises on `"2"`, the `load_reference_images`
action ends with the exception escaping (`true` flag) while the
reference-encoding store holds `[3]` — a partial rebuild, not its
pre-action value `[0]`. -/
theorem c1_counterexample :
    (load_reference_images
        (⟨["1", "2"], [(0 : ℚ)], ["0"], [], [("1", "A"), ("2", "A")]⟩ : AppState ℚ)
        (fun r => if r = "1" then RefOutcome.faces [(3 : ℚ)] else RefOutcome.err)).2
      = true ∧
    (load_reference_images
        (⟨["1", "2"], [(0 : ℚ)], ["0"], [], [("1", "A"), ("2", "A")]⟩ : AppState ℚ)
        (fun r => if r = "1" then RefOutcome.faces [(3 : ℚ)] else RefOutcome.err)).1.known_face_encodings
      ≠ [(0 : ℚ)] := by
  constructor
  · decide
  · decide

/-- Claim C1 (amended): the error outcomes that the source checks or
catches do leave every store at its pre-action value — a failed roster
load (`load_roll_numbers` on its non-success path) and a group image
that fails to decode (`process_image` with `cv2.imread` returning
`None`) change nothing.  `load_reference_images`, however, is not
atomic: it clears both reference stores up front and rebuilds them
entry by entry, so the action always ends with exactly the
successfully-encoded (descriptor, roll number) pairs preceding the
first raising entry (`refPairs`), the escaped-exception flag equal to
`refErr`, and only the other stores untouched; on an error partway the
pre-action reference stores are not restored. -/
theorem c1_amended_atomicity {Desc : Type} (dist : Desc → Desc → ℚ) :
    (∀ st : AppState Desc, load_roll_numbers st none = st) ∧
    (∀ st : AppState Desc, process_image dist st none = st) ∧
    (∀ (st : AppState Desc) (outcome : String → RefOutcome Desc),
      (load_reference_images st outcome).1.known_face_encodings
          = (refPairs outcome st.roll_numbers).map Prod.fst ∧
      (load_reference_images st outcome).1.known_face_roll_numbers
          = (refPairs outcome st.roll_numbers).map Prod.snd ∧
      (load_reference_images st outcome).2 = refErr outcome st.roll_numbers ∧
      (load_reference_images st outcome).1.roll_numbers = st.roll_numbers ∧
      (load_reference_images st outcome).1.group_face_encodings
          = st.group_face_encodings ∧
      (load_reference_images st outcome).1.table = st.table) := by
  refine ⟨fun st => rfl, fun st => rfl, fun st outcome => ?_⟩
  rw [load_reference_images_eq st outcome]
  exact ⟨rfl, rfl, rfl, rfl, rfl, rfl⟩

/-- Claim C2 is false as stated: with a previously stored detected face
`[(1 : ℚ)]` and a table row `("101", "P")`, processing a group image in
which zero faces are detected leaves the stored detected-face set at
`[(1 : ℚ)]` (not empty) and the table row at `("101", "P")` (not
Absent). -/
theorem c2_counterexample :
    (process_image (fun a b : ℚ => |a - b|)
        (⟨["101"], [], [], [(1 : ℚ)], [("101", "P")]⟩ : AppState ℚ)
        (some [])).group_face_encodings = [(1 : ℚ)] ∧
    (process_image (fun a b : ℚ => |a - b|)
        (⟨["101"], [], [], [(1 : ℚ)], [("101", "P")]⟩ : AppState ℚ)
        (some [])).table = [("101", "P")] :=
  ⟨rfl, rfl⟩

/-- Claim C2 (amended): a group image with zero detected faces is a
reported, non-crashing outcome handled by an early return:
`process_image` leaves the whole state — in particular the stored
detected-face set and every attendance record — at its prior value;
nothing is cleared to empty and no record is rewritten to Absent. -/
theorem c2_amended_zero_detections {Desc : Type} (dist : Desc → Desc → ℚ)
    (st : AppState Desc) :
    process_image dist st (some []) = st := rfl

/-- Claim C3: for a nonempty reference set (with roll numbers paired
index-by-index to the encodings), a detected descriptor is accepted if
and only if its minimum distance to the reference encodings is below
the fixed threshold `tolerance = 1/2`, and the accepted roll number is
the one at the first index attaining that minimum distance — ties
resolve to the earlier reference in reference-set order. -/
theorem c3_threshold_argmin {Desc : Type} (dist : Desc → Desc → ℚ)
    (known : List Desc) (rolls : List String) (det : Desc)
    (hne : known ≠ []) (hlen : rolls.length = known.length) :
    ((matchOne dist known rolls det).isSome
        ↔ listMin (face_distance dist known det) < tolerance) ∧
    (∀ r, matchOne dist known rolls det = some r →
      ∃ i, ∃ hi : i < (face_distance dist known det).length,
        (face_distance dist known det).get ⟨i, hi⟩
            = listMin (face_distance dist known det) ∧
        (∀ j (hj : j < (face_distance dist known det).length), j < i →
          listMin (face_distance dist known det)
            < (face_distance dist known det).get ⟨j, hj⟩) ∧
        ∃ hi2 : i < rolls.length, r = rolls.get ⟨i, hi2⟩) := by
  have hne2 : face_distance dist known det ≠ [] := face_distance_ne_nil dist det hne
  have hme := matchOne_eq dist rolls det hne
  constructor
  · rw [hme]
    by_cases hm : listMin (face_distance dist known det) < tolerance
    · simp [hm]
    · simp [hm]
  · intro r hr
    rw [hme] at hr
    by_cases hm : listMin (face_distance dist known det) < tolerance
    · rw [if_pos hm] at hr
      injection hr with hr2
      have hA : argmin (face_distance dist known det)
          < (face_distance dist known det).length := argmin_lt_length _ hne2
      have hi2 : argmin (face_distance dist known det) < rolls.length := by
        rw [hlen, ← face_distance_length dist known det]; exact hA
      have hga : (face_distance dist known det).get
          ⟨argmin (face_distance dist known det), hA⟩
            = listMin (face_distance dist known det) := by
        have h0 : (face_distance dist known det).getD
            (argmin (face_distance dist known det)) 0
              = (face_distance dist known det).get
                  ⟨argmin (face_distance dist known det), hA⟩ :=
          List.getD_eq_get _ _ hA
        rw [← h0]
        exact getD_argmin _ hne2
      refine ⟨argmin (face_distance dist known det), hA, hga,
        fun j hj hlt => listMin_lt_of_lt_argmin _ j hj hlt, hi2, ?_⟩
      rw [← hr2]
      exact List.getD_eq_get _ _ hi2
    · rw [if_neg hm] at hr
      cases hr

/-- Claim C4: with an empty reference set the matcher's
`len(face_distances) > 0` guard (`best_match_index = -1`) fires for
every detected descriptor, so no detected face matches and the present
set is empty for every detected-face set, nonempty ones included; the
`update_attendance` copy of the loop behaves identically. -/
theorem c4_empty_reference_guard {Desc : Type} (dist : Desc → Desc → ℚ)
    (rolls : List String) (dets : List Desc) :
    computePresent dist ([] : List Desc) rolls dets = ∅ ∧
    (∀ det : Desc, matchOne dist ([] : List Desc) rolls det = none) ∧
    computePresentUpdate dist ([] : List Desc) rolls dets = ∅ := by
  refine ⟨computePresent_nil_known dist rolls dets, fun det => rfl, ?_⟩
  have h : computePresentUpdate dist ([] : List Desc) rolls dets
      = computePresent dist ([] : List Desc) rolls dets := rfl
  rw [h]
  exact computePresent_nil_known dist rolls dets

/-- Claim C5: for a present set contained in the table's identifiers,
applying it is a total overwrite — the result has the same length, the
row at every index keeps its roll number and gets status `"P"` exactly
when that roll number is in the present set and `"A"` otherwise, and
the result is unchanged if all prior statuses are first rewritten
arbitrarily (no merge with prior statuses). -/
theorem c5_apply_present_total_overwrite (present : Finset String)
    (table : List (String × String))
    (hP : ∀ r ∈ present, r ∈ table.map Prod.fst) :
    (applyPresent table present).length = table.length ∧
    (∀ i, i < table.length →
      (applyPresent table present).getD i ("", "") =
        ((table.getD i ("", "")).1,
          if (table.getD i ("", "")).1 ∈ present then "P" else "A")) ∧
    (∀ statuses : String × String → String,
      applyPresent (table.map (fun row => (row.1, statuses row))) present
        = applyPresent table present) := by
  refine ⟨applyPresent_length table present,
    fun i hi => applyPresent_getD present table i hi, fun statuses => ?_⟩
  unfold applyPresent
  rw [List.map_map]
  rfl

/-- Claim C6: loading a roster rebuilds the attendance table from
scratch: the stored roster is the loaded one, the table has exactly one
row per roster identifier in roster order, every row's status is
Absent (`"A"`), and the result does not depend on the prior table. -/
theorem c6_rebuild_from_roster {Desc : Type} (st : AppState Desc)
    (rolls : List String) :
    (load_roll_numbers st (some rolls)).roll_numbers = rolls ∧
    (load_roll_numbers st (some rolls)).table.length = rolls.length ∧
    (∀ i, i < rolls.length →
      (load_roll_numbers st (some rolls)).table.getD i ("", "")
        = (rolls.getD i "", "A")) ∧
    (∀ st2 : AppState Desc,
      (load_roll_numbers st (some rolls)).table
        = (load_roll_numbers st2 (some rolls)).table) := by
  refine ⟨rfl, by simp [load_roll_numbers], fun i hi => ?_, fun st2 => rfl⟩
  show (rolls.map (fun r => (r, "A"))).getD i ("", "") = (rolls.getD i "", "A")
  induction rolls generalizing i with
  | nil => simp at hi
  | cons r rs ih =>
    cases i with
    | zero => simp
    | succ j =>
      have hj : j < rs.length := by simpa using hi
      simpa using ih j hj

/-- Claim C7: applying the same present set twice in succession yields
the same table as applying it once, for every table and present set:
the rewritten statuses depend only on the roll-number column, which the
rewrite preserves. -/
theorem c7_apply_present_idempotent (table : List (String × String))
    (present : Finset String) :
    applyPresent (applyPresent table present) present
      = applyPresent table present := by
  unfold applyPresent
  rw [List.map_map]
  rfl

/-- Claim C8: a roll number with no reference entry (absent from the
reference roll-number list) is never produced by the matching pass —
it is not in the present set for any detected-face set — and therefore
every attendance row carrying it is written `"A"` by the marking
loop. -/
theorem c8_no_reference_never_present {Desc : Type} (dist : Desc → Desc → ℚ)
    (known : List Desc) (rolls : List String) (dets : List Desc)
    (table : List (String × String)) (rn : String)
    (hlen : rolls.length = known.length) (hrn : rn ∉ rolls) :
    rn ∉ computePresent dist known rolls dets ∧
    (∀ row ∈ applyPresent table (computePresent dist known rolls dets),
      row.1 = rn → row.2 = "A") := by
  have hmem : rn ∉ computePresent dist known rolls dets := by
    rw [mem_computePresent]
    rintro ⟨det, hdet, hsome⟩
    rcases eq_or_ne known [] with rfl | hne
    · rw [matchOne_nil] at hsome
      cases hsome
    · rw [matchOne_eq dist rolls det hne] at hsome
      by_cases hm : listMin (face_distance dist known det) < tolerance
      · rw [if_pos hm] at hsome
        injection hsome with h2
        have hlt : argmin (face_distance dist known det) < rolls.length := by
          rw [hlen, ← face_distance_length dist known det]
          exact argmin_lt_length _ (face_distance_ne_nil dist det hne)
        rw [List.getD_eq_get _ _ hlt] at h2
        exact hrn (h2 ▸ List.get_mem _ _ _)
      · rw [if_neg hm] at hsome
        cases hsome
  refine ⟨hmem, fun row hrow h1 => ?_⟩
  unfold applyPresent at hrow
  rcases List.mem_map.mp hrow with ⟨row0, hrow0, rfl⟩
  have h2 : row0.1 = rn := h1
  show (if row0.1 ∈ computePresent dist known rolls dets then "P" else "A") = "A"
  rw [h2, if_neg hmem]

/-- Claim C9: the two reference stores start empty together, are
rebuilt in lockstep by `load_reference_images` — equal lengths, with
the entry at each index pairing a roll number with the first descriptor
its reference image encoded to — and are untouched by every other
operation; as a consequence, indexing the roll-number list by the
argmin over a nonempty distance list is always in bounds. -/
theorem c9_lockstep_invariant {Desc : Type} (dist : Desc → Desc → ℚ) :
    ((initState : AppState Desc).known_face_encodings.length
        = (initState : AppState Desc).known_face_roll_numbers.length) ∧
    (∀ (st : AppState Desc) (outcome : String → RefOutcome Desc),
      (load_reference_images st outcome).1.known_face_encodings.length
        = (load_reference_images st outcome).1.known_face_roll_numbers.length) ∧
    (∀ (st : AppState Desc) (outcome : String → RefOutcome Desc)
        (i : Nat) (d : Desc) (rn : String),
      (load_reference_images st outcome).1.known_face_encodings[i]? = some d →
      (load_reference_images st outcome).1.known_face_roll_numbers[i]? = some rn →
      ∃ tl, outcome rn = RefOutcome.faces (d :: tl)) ∧
    (∀ (st : AppState Desc) (csv : Option (List String)),
      (load_roll_numbers st csv).known_face_encodings = st.known_face_encodings ∧
      (load_roll_numbers st csv).known_face_roll_numbers
        = st.known_face_roll_numbers) ∧
    (∀ (st : AppState Desc) (decoded : Option (List Desc)),
      (process_image dist st decoded).known_face_encodings
        = st.known_face_encodings ∧
      (process_image dist st decoded).known_face_roll_numbers
        = st.known_face_roll_numbers) ∧
    (∀ st : AppState Desc,
      (update_attendance dist st).known_face_encodings
        = st.known_face_encodings ∧
      (update_attendance dist st).known_face_roll_numbers
        = st.known_face_roll_numbers) ∧
    (∀ (known : List Desc) (rolls : List String) (det : Desc),
      known.length = rolls.length → known ≠ [] →
      argmin (face_distance dist known det) < rolls.length) := by
  refine ⟨rfl, fun st outcome => ?_, fun st outcome i d rn hd hrn => ?_,
    fun st csv => ?_, fun st decoded => ?_, fun st => ?_,
    fun known rolls det hlen hne => ?_⟩
  · rw [load_reference_images_eq st outcome]
    simp
  · rw [load_reference_images_eq st outcome] at hd hrn
    simp only [List.getElem?_map] at hd hrn
    cases hp : (refPairs outcome st.roll_numbers)[i]? with
    | none =>
      rw [hp] at hd
      cases hd
    | some p =>
      rw [hp] at hd hrn
      simp only [Option.map_some'] at hd hrn
      injection hd with hd2
      injection hrn with hrn2
      rcases refPairs_pairing outcome st.roll_numbers p (List.getElem?_mem hp)
        with ⟨tl, htl⟩
      exact ⟨tl, by rw [← hrn2, ← hd2]; exact htl⟩
  · cases csv with
    | none => exact ⟨rfl, rfl⟩
    | some rolls => exact ⟨rfl, rfl⟩
  · cases decoded with
    | none => exact ⟨rfl, rfl⟩
    | some dets =>
      by_cases h : dets.length = 0 <;> simp [process_image, h]
  · unfold update_attendance
    split
    · exact ⟨rfl, rfl⟩
    · exact ⟨rfl, rfl⟩
  · rw [← hlen, ← face_distance_length dist known det]
    exact argmin_lt_length _ (face_distance_ne_nil dist det hne)

/-- Claim C10: the matching pass of `process_image` (lines 148-170) and
the matching pass of `update_attendance` (lines 181-203) are
equivalent: on the same reference encodings, reference roll numbers and
detected descriptors they compute the same present set, and write the
same statuses to any table. -/
theorem c10_match_pass_equivalence {Desc : Type} (dist : Desc → Desc → ℚ)
    (known : List Desc) (rolls : List String) (dets : List Desc) :
    computePresentUpdate dist known rolls dets
      = computePresent dist known rolls dets ∧
    (∀ table : List (String × String),
      applyPresentUpdate table (computePresentUpdate dist known rolls dets)
        = applyPresent table (computePresent dist known rolls dets)) :=
  ⟨rfl, fun _ => rfl⟩

/-- Witness for C3 at a concrete input: two references at distances
`1/5` and `49/5` from the detected descriptor; the match is accepted
exactly because the minimum distance `1/5` is below the tolerance. -/
theorem c3_witness :
    (matchOne (fun a b : ℚ => |a - b|) [(0 : ℚ), (10 : ℚ)] ["101", "102"]
        (1/5)).isSome
      ↔ listMin (face_distance (fun a b : ℚ => |a - b|) [(0 : ℚ), (10 : ℚ)] (1/5))
          < tolerance :=
  (c3_threshold_argmin (fun a b : ℚ => |a - b|) [(0 : ℚ), (10 : ℚ)] ["101", "102"]
    (1/5) (by decide) (by decide)).1

/-- Witness for C5 at a concrete input: applying `{"101"}` to a
two-row table touches both rows and keeps the length. -/
theorem c5_witness :
    (applyPresent [("101", "A"), ("102", "P")] {"101"}).length = 2 :=
  (c5_apply_present_total_overwrite {"101"} [("101", "A"), ("102", "P")]
    (by decide)).1

/-- Witness for C6 at a concrete input: after loading the roster
`["101", "102"]` the table's row 1 is `("102", "A")`. -/
theorem c6_witness :
    (load_roll_numbers (initState : AppState ℚ)
        (some ["101", "102"])).table.getD 1 ("", "") = ("102", "A") :=
  (c6_rebuild_from_roster (initState : AppState ℚ) ["101", "102"]).2.2.1 1
    (by decide)

/-- Witness for C8 at a concrete input: roll number `"103"` has no
reference entry and is not in the present set. -/
theorem c8_witness :
    "103" ∉ computePresent (fun a b : ℚ => |a - b|) [(0 : ℚ)] ["101"]
        [(1/5 : ℚ)] :=
  (c8_no_reference_never_present (fun a b : ℚ => |a - b|) [(0 : ℚ)] ["101"]
    [(1/5 : ℚ)] [] "103" (by decide) (by decide)).1

/-- Witness for C9 at a concrete input: with two references and two
roll numbers, the argmin over the distance list indexes the roll-number
list in bounds. -/
theorem c9_witness :
    argmin (face_distance (fun a b : ℚ => |a - b|) [(0 : ℚ), (10 : ℚ)] (1/5))
      < (["101", "102"] : List String).length :=
  (c9_lockstep_invariant (fun a b : ℚ => |a - b|)).2.2.2.2.2.2
    [(0 : ℚ), (10 : ℚ)] ["101", "102"] (1/5) (by decide) (by decide)

end AttendanceApp
